import Mathlib

/-!
Shallow embedding of the diff engine in `shared/run_diff.go` of wpt.fyi.

Go maps are modelled as association lists (`List (String × v)`); Go map
iteration becomes a left fold over the list, and Go map insertion
(`m[k] = v`, last write wins) becomes `mapInsert`.  A `nil` Go map or
`nil` mapset.Set is `none`; a present-but-empty one is `some []`.
Go `int` is `Int`.  Indexing `xs[i]` into a Go slice is modelled totally
with `List.getD i 0` in the main definitions, and with the partial
`List.get?` in the `Checked` variants, where an out-of-bounds access
(a Go panic) propagates as `none`.
-/

set_option autoImplicit false

namespace WptFyi

/-- A results summary: map from test path to `[count-passed, total]`. -/
abbrev Summary := List (String × List Int)

/-- Map from test path to `[newly-passing, newly-failing, total-delta]`. -/
abbrev Diff := List (String × List Int)

/-- Rename map (`map[string]string` in Go); `none` models a `nil` map. -/
abbrev RenameMap := Option (List (String × String))

/-- The four-facet diff filter (`DiffFilterParam` in Go). -/
structure DiffFilterParam where
  Added : Bool
  Deleted : Bool
  Changed : Bool
  Unchanged : Bool
deriving DecidableEq, Repr

/-- Go map insertion `m[k] = v`: overwrite the value when the key is
present, otherwise add the binding. -/
def mapInsert {β : Type} : List (String × β) → String → β → List (String × β)
  | [], k, v => [(k, v)]
  | (a, b) :: t, k, v =>
    if a == k then (k, v) :: t else (a, b) :: mapInsert t k v

/-- Apply an optional write to the diff map (`continue` vs `diff[k] = v`). -/
def applyOut {β : Type} (d : List (String × β)) (o : Option (String × β)) :
    List (String × β) :=
  match o with
  | none => d
  | some kv => mapInsert d kv.1 kv.2

/-- Go `strings.Index(testPath, path) == 0`: `path` occurs in `testPath`
at position 0, i.e. `testPath` starts with `path`.  Modelled on the
character lists so that it evaluates by kernel reduction. -/
def strIndex0 (testPath path : String) : Bool :=
  List.isPrefixOf path.data testPath.data

/-- `anyPathMatches` from run_diff.go: a `nil` set matches everything,
otherwise some member of the set must occur at index 0 of the test path
(`strings.Index(testPath, path) == 0`). -/
def anyPathMatches (paths : Option (List String)) (testPath : String) : Bool :=
  match paths with
  | none => true
  | some ps => ps.any (fun path => strIndex0 testPath path)

/-- The rename substitution at the top of the first pass of
`GetResultsDiff`: if `renames` is non-nil and has an entry for `test`,
replace `test` by its target. -/
def renameTest (renames : RenameMap) (test : String) : String :=
  match renames with
  | none => test
  | some rs =>
    match rs.lookup test with
    | some rename => rename
    | none => test

/-- The rename-target check at the top of the second pass of
`GetResultsDiff`: is `test` the target (`is`) of some rename entry? -/
def isRenameTarget (renames : RenameMap) (test : String) : Bool :=
  match renames with
  | none => false
  | some rs => rs.any (fun p => p.2 == test)

/-- One iteration of the first (deleted/changed/unchanged) pass of
`GetResultsDiff`, as the optional `(key, value)` write it performs. -/
def pass1Out (after : Summary) (filter : DiffFilterParam)
    (paths : Option (List String)) (renames : RenameMap)
    (e : String × List Int) : Option (String × List Int) :=
  let test := renameTest renames e.1
  let resultsBefore := e.2
  if !anyPathMatches paths test then none
  else
    match after.lookup test with
    | none =>
      if !filter.Deleted then none
      else some (test, [0, 0, -(resultsBefore.getD 1 0)])
    | some resultsAfter =>
      if !filter.Changed && !filter.Unchanged then none
      else
        let delta := resultsBefore.getD 0 0 - resultsAfter.getD 0 0
        let changed : Bool :=
          (delta != 0) || (resultsBefore.getD 1 0 != resultsAfter.getD 1 0)
        if (!changed && !filter.Unchanged) || (changed && !filter.Changed) then
          none
        else
          let improved :=
            if resultsAfter.getD 0 0 - resultsBefore.getD 0 0 > 0 then
              resultsAfter.getD 0 0 - resultsBefore.getD 0 0
            else 0
          let failingBefore := resultsBefore.getD 1 0 - resultsBefore.getD 0 0
          let failingAfter := resultsAfter.getD 1 0 - resultsAfter.getD 0 0
          let regressed :=
            if failingAfter - failingBefore > 0 then failingAfter - failingBefore
            else 0
          some (test,
            [improved, regressed,
             resultsAfter.getD 1 0 - resultsBefore.getD 1 0])

/-- One iteration of the second (added) pass of `GetResultsDiff`, as the
optional `(key, value)` write it performs. -/
def pass2Out (before : Summary) (paths : Option (List String))
    (renames : RenameMap) (e : String × List Int) :
    Option (String × List Int) :=
  let test := e.1
  let resultsAfter := e.2
  if isRenameTarget renames test then none
  else if !anyPathMatches paths test then none
  else
    match before.lookup test with
    | some _ => none
    | none =>
      some (test,
        [resultsAfter.getD 0 0,
         resultsAfter.getD 1 0 - resultsAfter.getD 0 0,
         resultsAfter.getD 1 0])

/-- `GetResultsDiff` from run_diff.go: the first pass runs only when
`filter.Deleted || filter.Changed`, the second only when `filter.Added`;
both write into the same map. -/
def GetResultsDiff (before after : Summary) (filter : DiffFilterParam)
    (paths : Option (List String)) (renames : RenameMap) : Diff :=
  let diff : Diff := []
  let diff :=
    if filter.Deleted || filter.Changed then
      before.foldl (fun d e => applyOut d (pass1Out after filter paths renames e)) diff
    else diff
  if filter.Added then
    after.foldl (fun d e => applyOut d (pass2Out before paths renames e)) diff
  else diff

/-- A file record from the GitHub commit-comparison response as used by
`getDiffRenames`: only entries whose status is exactly "renamed"
contribute, via their `previousFilename`/`filename` pair. -/
structure GithubFile where
  status : String
  filename : String
  previousFilename : String
deriving DecidableEq, Repr

/-- Go `s[:7]` as it occurs in the log calls of `getDiffRenames`:
evaluating the slice panics (`none`) when the string has fewer than 7
bytes; the sliced value itself only feeds a log line, which is not
otherwise modelled. -/
def goSlice7 (s : String) : Option Unit :=
  if 7 ≤ s.utf8ByteSize then some () else none

/-- `getDiffRenames` from run_diff.go, with its two I/O collaborators
(the "github-api-token" secret fetch and `CompareCommits`, the latter
as error-or-(nil-or-files)) passed as parameters, and a Go panic
modelled as the outer `none` (a graceful return of a nil map is
`some none`).  Identical revisions and a secret failure return a nil
map.  The `err != nil || comparison == nil` branch logs with
`shaBefore[:7]`, `shaAfter[:7]` and `err.Error()`, evaluated in that
order: a revision shorter than 7 bytes panics in the slice, and a nil
comparison with a nil error always panics — in the slices or, with
long revisions, in `err.Error()` on the nil error.  On success the map
is built from the "renamed" files, each path prefixed with "/"; when it
is empty, a debug log slices both revisions again (panicking on short
ones) before the — possibly empty — map is returned. -/
def getDiffRenames (shaBefore shaAfter : String)
    (secret : Except String String)
    (comparison : Except String (Option (List GithubFile))) :
    Option RenameMap :=
  if shaBefore == shaAfter then some none
  else
    match secret with
    | Except.error _ => some none
    | Except.ok _ =>
      match comparison with
      | Except.error _ =>
        match goSlice7 shaBefore with
        | none => none
        | some _ =>
          match goSlice7 shaAfter with
          | none => none
          | some _ => some none
      | Except.ok none => none
      | Except.ok (some files) =>
        let renames := files.foldl
          (fun renames file =>
            if file.status == "renamed" then
              mapInsert renames ("/" ++ file.previousFilename)
                ("/" ++ file.filename)
            else renames) []
        if renames.length < 1 then
          match goSlice7 shaBefore with
          | none => none
          | some _ =>
            match goSlice7 shaAfter with
            | none => none
            | some _ => some (some renames)
        else some (some renames)

/-- `RunDiff`: the fields populated by the diff engine (the `TestRun`
metadata fields are external pass-through and not modelled). -/
structure RunDiff where
  BeforeSummary : Summary
  AfterSummary : Summary
  Differences : Diff
  Renames : RenameMap
deriving DecidableEq

/-- `GetRunsDiff` from run_diff.go, with the two summary fetches
(`FetchRunResultsJSON`, a network call) and the collaborators of
`getDiffRenames` passed as parameters: either fetch failure aborts with
a wrapped error naming the side (the 'before' fetch is checked first);
`getDiffRenames` is invoked only when the `diffRenames` feature is
enabled, and a panic inside it (outer `none`) propagates. -/
def GetRunsDiff (beforeFetch afterFetch : Except String Summary)
    (filter : DiffFilterParam) (paths : Option (List String))
    (diffRenamesEnabled : Bool) (shaBefore shaAfter : String)
    (secret : Except String String)
    (comparison : Except String (Option (List GithubFile))) :
    Option (Except String RunDiff) :=
  match beforeFetch with
  | Except.error e =>
    some (Except.error ("Failed to fetch \x27before\x27 results: " ++ e))
  | Except.ok beforeJSON =>
    match afterFetch with
    | Except.error e =>
      some (Except.error ("Failed to fetch \x27after\x27 results: " ++ e))
    | Except.ok afterJSON =>
      match (if diffRenamesEnabled then
          getDiffRenames shaBefore shaAfter secret comparison
        else some none) with
      | none => none
      | some renames =>
        some (Except.ok
          { BeforeSummary := beforeJSON
            AfterSummary := afterJSON
            Differences := GetResultsDiff beforeJSON afterJSON filter paths renames
            Renames := renames })

/-- First-pass body with the slice accesses `resultsBefore[i]`,
`resultsAfter[i]` made partial (`List.get?`): an out-of-range index (a
Go panic) is the outer `none`, a skipped entry (`continue`) is
`some none`, and a write is `some (some kv)`. -/
def pass1OutChecked (after : Summary) (filter : DiffFilterParam)
    (paths : Option (List String)) (renames : RenameMap)
    (e : String × List Int) : Option (Option (String × List Int)) :=
  let test := renameTest renames e.1
  let resultsBefore := e.2
  if !anyPathMatches paths test then some none
  else
    match after.lookup test with
    | none =>
      if !filter.Deleted then some none
      else
        match resultsBefore.get? 1 with
        | none => none
        | some bt => some (some (test, [0, 0, -bt]))
    | some resultsAfter =>
      if !filter.Changed && !filter.Unchanged then some none
      else
        match resultsBefore.get? 0, resultsBefore.get? 1,
            resultsAfter.get? 0, resultsAfter.get? 1 with
        | some bp, some bt, some ap, some at2 =>
          let delta := bp - ap
          let changed : Bool := (delta != 0) || (bt != at2)
          if (!changed && !filter.Unchanged) || (changed && !filter.Changed) then
            some none
          else
            let improved := if ap - bp > 0 then ap - bp else 0
            let failingBefore := bt - bp
            let failingAfter := at2 - ap
            let regressed :=
              if failingAfter - failingBefore > 0 then
                failingAfter - failingBefore
              else 0
            some (some (test, [improved, regressed, at2 - bt]))
        | _, _, _, _ => none

/-- Second-pass body with the slice accesses made partial, with the same
convention as `pass1OutChecked`. -/
def pass2OutChecked (before : Summary) (paths : Option (List String))
    (renames : RenameMap) (e : String × List Int) :
    Option (Option (String × List Int)) :=
  if isRenameTarget renames e.1 then some none
  else if !anyPathMatches paths e.1 then some none
  else
    match before.lookup e.1 with
    | some _ => some none
    | none =>
      match e.2.get? 0, e.2.get? 1 with
      | some ap, some at2 => some (some (e.1, [ap, at2 - ap, at2]))
      | _, _ => none

/-- `GetResultsDiff` with partial slice indexing: a Go panic anywhere
in either pass propagates as `none`. -/
def GetResultsDiffChecked (before after : Summary) (filter : DiffFilterParam)
    (paths : Option (List String)) (renames : RenameMap) : Option Diff :=
  let diff : Option Diff := some []
  let diff :=
    if filter.Deleted || filter.Changed then
      before.foldl
        (fun d e => d.bind (fun d0 =>
          (pass1OutChecked after filter paths renames e).map (applyOut d0)))
        diff
    else diff
  if filter.Added then
    after.foldl
      (fun d e => d.bind (fun d0 =>
        (pass2OutChecked before paths renames e).map (applyOut d0)))
      diff
  else diff

/-! ### Association-list lemmas -/

theorem lookup_cons {β : Type} (a : String) (b : β) (es : List (String × β))
    (q : String) :
    List.lookup q ((a, b) :: es) = if q == a then some b else List.lookup q es := by
  simp only [List.lookup]
  cases h : q == a <;> simp

theorem lookup_append {β : Type} (l1 l2 : List (String × β)) (q : String) :
    (l1 ++ l2).lookup q = (l1.lookup q).or (l2.lookup q) := by
  induction l1 with
  | nil => simp [List.lookup, Option.none_or]
  | cons e t ih =>
    obtain ⟨a, b⟩ := e
    simp only [List.cons_append, lookup_cons]
    by_cases h : q = a
    · simp [h]
    · simp [h, ih]

theorem lookup_eq_none_of_no_key {β : Type} (l : List (String × β)) (q : String)
    (h : ∀ e ∈ l, e.1 ≠ q) : l.lookup q = none := by
  induction l with
  | nil => rfl
  | cons e t ih =>
    obtain ⟨a, b⟩ := e
    have ha : a ≠ q := h (a, b) (List.mem_cons_self _ _)
    rw [lookup_cons]
    have hb : (q == a) = false := by simp [Ne.symm ha]
    rw [hb]
    simpa using ih (fun e he => h e (List.mem_cons_of_mem _ he))

theorem mapInsert_lookup {β : Type} (m : List (String × β)) (k : String) (v : β)
    (q : String) :
    (mapInsert m k v).lookup q = if q = k then some v else m.lookup q := by
  induction m with
  | nil =>
    show List.lookup q [(k, v)] = _
    rw [lookup_cons]
    by_cases hq : q = k <;> simp [hq, List.lookup]
  | cons e t ih =>
    obtain ⟨a, b⟩ := e
    by_cases ha : a = k
    · subst ha
      simp only [mapInsert, BEq.refl, if_pos, lookup_cons]
      by_cases hq : q = a <;> simp [hq]
    · have hak : (a == k) = false := by simp [ha]
      simp only [mapInsert, hak, Bool.false_eq_true, if_false, lookup_cons, ih]
      by_cases hq : q = a
      · subst hq
        have : q ≠ k := ha
        simp [this]
      · simp [hq]

theorem lookup_mem {β : Type} (l : List (String × β)) (q : String) (v : β)
    (h : l.lookup q = some v) : (q, v) ∈ l := by
  induction l with
  | nil => simp [List.lookup] at h
  | cons e t ih =>
    obtain ⟨a, b⟩ := e
    rw [lookup_cons] at h
    by_cases hq : q = a
    · subst hq
      simp only [BEq.refl, if_pos] at h
      cases h
      exact List.mem_cons_self _ _
    · have : (q == a) = false := by simp [hq]
      rw [this] at h
      simp only [Bool.false_eq_true, if_false] at h
      exact List.mem_cons_of_mem _ (ih h)

theorem lookup_isSome_of_mem {β : Type} (l : List (String × β))
    (e : String × β) (he : e ∈ l) : (l.lookup e.1).isSome = true := by
  induction l with
  | nil => simp at he
  | cons a t ih =>
    obtain ⟨k, b⟩ := a
    rw [lookup_cons]
    by_cases hq : e.1 = k
    · simp [hq]
    · have : (e.1 == k) = false := by simp [hq]
      rw [this]
      simp only [Bool.false_eq_true, if_false]
      rcases List.mem_cons.mp he with rfl | hmem
      · simp at hq
      · exact ih hmem

theorem mem_eq_of_nodup_keys {β : Type} (l : List (String × β))
    (hnd : (l.map Prod.fst).Nodup) (k : String) (v w : β)
    (hv : (k, v) ∈ l) (hw : (k, w) ∈ l) : v = w := by
  induction l with
  | nil => simp at hv
  | cons a t ih =>
    obtain ⟨a1, b1⟩ := a
    simp only [List.map_cons, List.nodup_cons] at hnd
    rcases List.mem_cons.mp hv with hv1 | hv2
    · rcases List.mem_cons.mp hw with hw1 | hw2
      · cases hv1; cases hw1; rfl
      · cases hv1
        exact absurd (List.mem_map_of_mem Prod.fst hw2) hnd.1
    · rcases List.mem_cons.mp hw with hw1 | hw2
      · cases hw1
        exact absurd (List.mem_map_of_mem Prod.fst hv2) hnd.1
      · exact ih hnd.2 hv2 hw2

theorem perm_lookup_eq {β : Type} (l1 l2 : List (String × β))
    (hnd : (l1.map Prod.fst).Nodup) (hperm : l1.Perm l2) (q : String) :
    l1.lookup q = l2.lookup q := by
  cases h : l1.lookup q with
  | none =>
    cases h2 : l2.lookup q with
    | none => rfl
    | some v =>
      have hm : (q, v) ∈ l1 := hperm.symm.subset (lookup_mem l2 q v h2)
      have := lookup_isSome_of_mem l1 (q, v) hm
      rw [h] at this
      simp at this
  | some v =>
    have hm : (q, v) ∈ l2 := hperm.subset (lookup_mem l1 q v h)
    cases h2 : l2.lookup q with
    | none =>
      have := lookup_isSome_of_mem l2 (q, v) hm
      rw [h2] at this
      simp at this
    | some w =>
      have hmw : (q, w) ∈ l1 := hperm.symm.subset (lookup_mem l2 q w h2)
      have hmv : (q, v) ∈ l1 := hperm.symm.subset hm
      rw [mem_eq_of_nodup_keys l1 hnd q v w hmv hmw]

/-! ### Folding optional writes into the diff map -/

theorem foldl_applyOut_lookup {α β : Type} (out : α → Option (String × β))
    (l : List α) (d : List (String × β)) (q : String) :
    (l.foldl (fun acc e => applyOut acc (out e)) d).lookup q
      = ((l.reverse.filterMap out).lookup q).or (d.lookup q) := by
  induction l generalizing d with
  | nil => simp [List.lookup, Option.none_or]
  | cons e t ih =>
    simp only [List.foldl_cons, List.reverse_cons, List.filterMap_append,
      lookup_append, Option.or_assoc]
    rw [ih]
    congr 1
    cases hout : out e with
    | none => simp [applyOut, hout, List.lookup, Option.none_or]
    | some kv =>
      obtain ⟨k, v⟩ := kv
      simp only [applyOut, List.filterMap_cons, hout, List.filterMap_nil]
      rw [mapInsert_lookup, lookup_cons]
      by_cases hq : q = k
      · simp [hq]
      · have : (q == k) = false := by simp [hq]
        rw [this]
        simp [hq, List.lookup, Option.none_or]

theorem lookup_filterMap_none {α β : Type} (l : List α)
    (out : α → Option (String × β)) (q : String)
    (h : ∀ e ∈ l, ∀ v, out e ≠ some (q, v)) :
    (l.filterMap out).lookup q = none := by
  apply lookup_eq_none_of_no_key
  intro p hp
  rw [List.mem_filterMap] at hp
  obtain ⟨e, he, hout⟩ := hp
  intro hk
  apply h e he p.2
  rw [hout]
  congr
  exact hk.symm ▸ (Prod.mk.eta).symm

theorem lookup_filterMap_unique {α β : Type} (l : List α)
    (out : α → Option (String × β)) (q : String) (w : β)
    (hex : ∃ e ∈ l, out e = some (q, w))
    (huni : ∀ e ∈ l, ∀ v, out e = some (q, v) → v = w) :
    (l.filterMap out).lookup q = some w := by
  induction l with
  | nil => simp at hex
  | cons e t ih =>
    cases hout : out e with
    | none =>
      rw [List.filterMap_cons, hout]
      apply ih
      · obtain ⟨e', he', h'⟩ := hex
        rcases List.mem_cons.mp he' with rfl | hmem
        · rw [hout] at h'; cases h'
        · exact ⟨e', hmem, h'⟩
      · exact fun e' he' v h' => huni e' (List.mem_cons_of_mem _ he') v h'
    | some kv =>
      obtain ⟨k, v⟩ := kv
      rw [List.filterMap_cons, hout, lookup_cons]
      by_cases hk : q = k
      · subst hk
        have := huni e (List.mem_cons_self _ _) v hout
        simp [this]
      · have : (q == k) = false := by simp [hk]
        rw [this]
        simp only [Bool.false_eq_true, if_false]
        apply ih
        · obtain ⟨e', he', h'⟩ := hex
          rcases List.mem_cons.mp he' with rfl | hmem
          · rw [hout] at h'
            cases h'
            exact absurd rfl hk
          · exact ⟨e', hmem, h'⟩
        · exact fun e' he' v' h' => huni e' (List.mem_cons_of_mem _ he') v' h'

/-- Lookup in the writes of a key-respecting pass over a nodup-keyed map:
the result is determined by the map's binding at `q`. -/
theorem lookup_filterMap_keyed {γ β : Type} (l : List (String × γ))
    (out : (String × γ) → Option (String × β)) (q : String)
    (hk : ∀ e k v, out e = some (k, v) → k = e.1)
    (hnd : (l.map Prod.fst).Nodup) :
    (l.reverse.filterMap out).lookup q
      = (l.lookup q).bind (fun v => (out (q, v)).map Prod.snd) := by
  cases hl : l.lookup q with
  | none =>
    show (l.reverse.filterMap out).lookup q = none
    apply lookup_filterMap_none
    intro e he v hout
    have hkey : q = e.1 := hk e q v hout
    have hmem : e ∈ l := List.mem_reverse.mp he
    have := lookup_isSome_of_mem l e hmem
    rw [← hkey, hl] at this
    simp at this
  | some v =>
    show (l.reverse.filterMap out).lookup q = (out (q, v)).map Prod.snd
    have hmem : (q, v) ∈ l := lookup_mem l q v hl
    cases hout : out (q, v) with
    | none =>
      show _ = (none : Option β)
      apply lookup_filterMap_none
      intro e he u hu
      have hkey : q = e.1 := hk e q u hu
      have hel : e ∈ l := List.mem_reverse.mp he
      have he2 : e = (q, e.2) := by
        rw [hkey]
      have : e.2 = v := by
        apply mem_eq_of_nodup_keys l hnd q e.2 v _ hmem
        rw [← he2]
        exact hel
      rw [he2, this, hout] at hu
      cases hu
    | some ku =>
      obtain ⟨k, u⟩ := ku
      have hkq : k = q := hk (q, v) k u hout
      rw [hkq] at hout
      show _ = some u
      apply lookup_filterMap_unique
      · exact ⟨(q, v), List.mem_reverse.mpr hmem, hout⟩
      · intro e he u' hu
        have hkey : q = e.1 := hk e q u' hu
        have hel : e ∈ l := List.mem_reverse.mp he
        have he2 : e = (q, e.2) := by
          rw [hkey]
        have hev : e.2 = v := by
          apply mem_eq_of_nodup_keys l hnd q e.2 v _ hmem
          rw [← he2]
          exact hel
        rw [he2, hev, hout] at hu
        cases hu
        rfl

/-- The lookup of `GetResultsDiff` at a key, split into the contributions
of the two passes (the added pass wins when both wrote the key). -/
theorem getResultsDiff_lookup (b a : Summary) (f : DiffFilterParam)
    (p : Option (List String)) (r : RenameMap) (q : String) :
    (GetResultsDiff b a f p r).lookup q
      = (if f.Added then (a.reverse.filterMap (pass2Out b p r)).lookup q
         else none).or
        (if f.Deleted || f.Changed then
           (b.reverse.filterMap (pass1Out a f p r)).lookup q
         else none) := by
  cases h1 : f.Deleted || f.Changed with
  | true =>
    cases h2 : f.Added with
    | true =>
      simp only [GetResultsDiff, h1, h2, if_true]
      rw [foldl_applyOut_lookup, foldl_applyOut_lookup]
      simp [List.lookup, Option.or_none]
    | false =>
      simp only [GetResultsDiff, h1, h2, Bool.false_eq_true, if_false, if_true]
      rw [foldl_applyOut_lookup]
      simp [List.lookup, Option.or_none, Option.none_or]
  | false =>
    cases h2 : f.Added with
    | true =>
      simp only [GetResultsDiff, h1, h2, Bool.false_eq_true, if_false, if_true]
      rw [foldl_applyOut_lookup]
      simp [List.lookup, Option.or_none, Option.none_or]
    | false =>
      simp only [GetResultsDiff, h1, h2, Bool.false_eq_true, if_false]
      simp [List.lookup]

/-! ### Shape lemmas for the two passes -/

theorem isRenameTarget_of_lookup (rs : List (String × String)) (t u : String)
    (h : rs.lookup t = some u) : isRenameTarget (some rs) u = true := by
  simp only [isRenameTarget, List.any_eq_true]
  exact ⟨(t, u), lookup_mem rs t u h, by simp⟩

theorem isRenameTarget_of_renameTest_ne (r : RenameMap) (t : String)
    (h : renameTest r t ≠ t) : isRenameTarget r (renameTest r t) = true := by
  cases r with
  | none => exact absurd rfl h
  | some rs =>
    simp only [renameTest] at h ⊢
    cases hl : rs.lookup t with
    | none => rw [hl] at h; exact absurd rfl h
    | some u => exact isRenameTarget_of_lookup rs t u hl

theorem pass1Out_key (a : Summary) (f : DiffFilterParam) (p : Option (List String))
    (r : RenameMap) (e : String × List Int) (k : String) (v : List Int)
    (h : pass1Out a f p r e = some (k, v)) :
    k = renameTest r e.1 ∧ anyPathMatches p k = true := by
  simp only [pass1Out] at h
  by_cases hs : anyPathMatches p (renameTest r e.1) = true
  · rw [hs] at h
    simp only [Bool.not_true, Bool.false_eq_true, if_false] at h
    cases hl : a.lookup (renameTest r e.1) with
    | none =>
      rw [hl] at h
      dsimp only at h
      split at h
      · cases h
      · rw [Option.some.injEq, Prod.mk.injEq] at h
        exact ⟨h.1.symm, h.1 ▸ hs⟩
    | some ra =>
      rw [hl] at h
      dsimp only at h
      split at h
      · cases h
      · split at h
        · cases h
        · rw [Option.some.injEq, Prod.mk.injEq] at h
          exact ⟨h.1.symm, h.1 ▸ hs⟩
  · have hs2 : anyPathMatches p (renameTest r e.1) = false :=
      Bool.eq_false_iff.mpr hs
    rw [hs2] at h
    simp at h

theorem pass2Out_key (b : Summary) (p : Option (List String)) (r : RenameMap)
    (e : String × List Int) (k : String) (v : List Int)
    (h : pass2Out b p r e = some (k, v)) :
    k = e.1 ∧ anyPathMatches p k = true ∧ isRenameTarget r k = false ∧
      b.lookup k = none := by
  simp only [pass2Out] at h
  by_cases ht : isRenameTarget r e.1 = true
  · rw [ht] at h; simp at h
  · have ht2 : isRenameTarget r e.1 = false := Bool.eq_false_iff.mpr ht
    rw [ht2] at h
    simp only [Bool.false_eq_true, if_false] at h
    by_cases hs : anyPathMatches p e.1 = true
    · rw [hs] at h
      simp only [Bool.not_true, Bool.false_eq_true, if_false] at h
      cases hl : b.lookup e.1 with
      | none =>
        rw [hl] at h
        dsimp only at h
        rw [Option.some.injEq, Prod.mk.injEq] at h
        exact ⟨h.1.symm, h.1 ▸ hs, h.1 ▸ ht2, h.1 ▸ hl⟩
      | some rb =>
        rw [hl] at h
        cases h
    · have hs2 : anyPathMatches p e.1 = false := Bool.eq_false_iff.mpr hs
      rw [hs2] at h
      simp at h

/-! ### Evaluation lemmas for the two passes -/

theorem ite_gt_eq_max (x : Int) : (if x > 0 then x else 0) = max 0 x := by
  by_cases h : x > 0
  · rw [if_pos h]; exact (max_eq_right h.le).symm
  · rw [if_neg h]; exact (max_eq_left (not_lt.mp h)).symm

theorem pass1Out_deleted (a : Summary) (f : DiffFilterParam)
    (p : Option (List String)) (r : RenameMap) (e : String × List Int)
    (hs : anyPathMatches p (renameTest r e.1) = true)
    (hl : a.lookup (renameTest r e.1) = none) :
    pass1Out a f p r e =
      if f.Deleted then some (renameTest r e.1, [0, 0, -(e.2.getD 1 0)])
      else none := by
  simp only [pass1Out, hs, Bool.not_true, Bool.false_eq_true, if_false, hl]
  cases hd : f.Deleted <;> simp

theorem pass1Out_unchanged (a : Summary) (f : DiffFilterParam)
    (p : Option (List String)) (r : RenameMap) (e : String × List Int)
    (w : List Int)
    (hs : anyPathMatches p (renameTest r e.1) = true)
    (hl : a.lookup (renameTest r e.1) = some w)
    (h0 : e.2.getD 0 0 = w.getD 0 0) (h1 : e.2.getD 1 0 = w.getD 1 0) :
    pass1Out a f p r e =
      if f.Unchanged then some (renameTest r e.1, [0, 0, 0]) else none := by
  simp only [pass1Out, hs, Bool.not_true, Bool.false_eq_true, if_false, hl,
    h0, h1]
  cases hu : f.Unchanged <;> cases hc : f.Changed <;> simp [sub_self]

theorem pass1Out_changed (a : Summary) (f : DiffFilterParam)
    (p : Option (List String)) (r : RenameMap) (e : String × List Int)
    (w : List Int)
    (hs : anyPathMatches p (renameTest r e.1) = true)
    (hl : a.lookup (renameTest r e.1) = some w)
    (hne : ¬(e.2.getD 0 0 = w.getD 0 0 ∧ e.2.getD 1 0 = w.getD 1 0))
    (hc : f.Changed = true) :
    pass1Out a f p r e =
      some (renameTest r e.1,
        [max 0 (w.getD 0 0 - e.2.getD 0 0),
         max 0 ((w.getD 1 0 - w.getD 0 0) - (e.2.getD 1 0 - e.2.getD 0 0)),
         w.getD 1 0 - e.2.getD 1 0]) := by
  simp only [pass1Out, hs, Bool.not_true, Bool.false_eq_true, if_false, hl, hc]
  have hch : ((e.2.getD 0 0 - w.getD 0 0 != 0) ||
      (e.2.getD 1 0 != w.getD 1 0)) = true := by
    rw [Bool.or_eq_true, bne_iff_ne, bne_iff_ne]
    rcases not_and_or.mp hne with h | h
    · exact Or.inl (sub_ne_zero.mpr h)
    · exact Or.inr h
  rw [hch]
  simp only [Bool.not_true, Bool.false_and, Bool.and_false, Bool.true_and,
    Bool.or_false, Bool.false_or, Bool.false_eq_true, if_false,
    ite_gt_eq_max]

theorem pass2Out_added (b : Summary) (p : Option (List String)) (r : RenameMap)
    (e : String × List Int)
    (ht : isRenameTarget r e.1 = false)
    (hs : anyPathMatches p e.1 = true)
    (hl : b.lookup e.1 = none) :
    pass2Out b p r e =
      some (e.1,
        [e.2.getD 0 0, e.2.getD 1 0 - e.2.getD 0 0, e.2.getD 1 0]) := by
  simp only [pass2Out, ht, hs, Bool.not_true, Bool.false_eq_true, if_false, hl]

theorem pass2Out_none_of_mem (b : Summary) (p : Option (List String))
    (r : RenameMap) (e : String × List Int) (w : List Int)
    (hl : b.lookup e.1 = some w) : pass2Out b p r e = none := by
  simp only [pass2Out, hl]
  cases ht : isRenameTarget r e.1 <;>
    cases hs : anyPathMatches p e.1 <;> simp

/-- If `path` is not a rename target, no other before-entry can be
renamed onto `path`. -/
theorem nocollide_of_not_target (b : Summary) (r : RenameMap) (path : String)
    (hnt : isRenameTarget r path = false) :
    ∀ e ∈ b, e.1 ≠ path → renameTest r e.1 ≠ path := by
  intro e _ h1 hcon
  by_cases h2 : renameTest r e.1 = e.1
  · rw [h2] at hcon; exact h1 hcon
  · have := isRenameTarget_of_renameTest_ne r e.1 h2
    rw [hcon, hnt] at this
    exact Bool.false_ne_true this

/-- Under a no-collision hypothesis, the only before-entry whose
first-pass write can target `u` is the entry `(t, v)` itself. -/
theorem pass1_writer_eq (b a : Summary) (f : DiffFilterParam)
    (p : Option (List String)) (r : RenameMap) (t u : String) (v : List Int)
    (hmem : (t, v) ∈ b) (hnd : (b.map Prod.fst).Nodup)
    (hnocol : ∀ e ∈ b, e.1 ≠ t → renameTest r e.1 ≠ u)
    (e : String × List Int) (he : e ∈ b) (vv : List Int)
    (hout : pass1Out a f p r e = some (u, vv)) : e = (t, v) := by
  obtain ⟨hkey, -⟩ := pass1Out_key a f p r e u vv hout
  by_cases h1 : e.1 = t
  · have he2 : e = (t, e.2) := by rw [← h1]
    have hv : e.2 = v :=
      mem_eq_of_nodup_keys b hnd t e.2 v (he2 ▸ he) hmem
    rw [he2, hv]
  · exact absurd hkey.symm (hnocol e he h1)

/-! ### C1: unchanged entries -/

/-- C1 (counterexample): a path present in both summaries with identical
`(passed,total)` counts, in scope and with no rename entry, does NOT
appear in the output under the filter `unchanged=true,
added=deleted=changed=false`, contradicting the claim that it appears
iff `filter.unchanged` is true. -/
theorem c1_unchanged_only_filter_counterexample :
    anyPathMatches none "/a" = true ∧
    (GetResultsDiff [("/a", [1, 2])] [("/a", [1, 2])]
        ⟨false, false, false, true⟩ none none).lookup "/a" = none :=
  ⟨rfl, rfl⟩

/-- C1 (amended): for a path in scope, present in both summaries with
identical `(passed,total)` counts, no rename entry for it and not the
target of a rename, the path appears in the output of `GetResultsDiff`
iff `filter.unchanged` is true AND the first pass runs at all
(`filter.deleted` or `filter.changed` is set), and when it appears its
triple is `[0,0,0]`. -/
theorem c1_unchanged_pass_gated (b a : Summary) (f : DiffFilterParam)
    (p : Option (List String)) (r : RenameMap) (path : String)
    (v w : List Int)
    (hb : b.lookup path = some v) (ha : a.lookup path = some w)
    (h0 : v.getD 0 0 = w.getD 0 0) (h1 : v.getD 1 0 = w.getD 1 0)
    (hs : anyPathMatches p path = true)
    (hnr : renameTest r path = path)
    (hnt : isRenameTarget r path = false)
    (hnd : (b.map Prod.fst).Nodup) :
    (GetResultsDiff b a f p r).lookup path =
      if (f.Deleted || f.Changed) && f.Unchanged then some [0, 0, 0]
      else none := by
  rw [getResultsDiff_lookup]
  have h2 : (a.reverse.filterMap (pass2Out b p r)).lookup path = none := by
    apply lookup_filterMap_none
    intro e he vv hout
    obtain ⟨-, -, -, hlook⟩ := pass2Out_key b p r e path vv hout
    rw [hb] at hlook
    cases hlook
  have hmem : (path, v) ∈ b := lookup_mem b path v hb
  have hout1 : pass1Out a f p r (path, v) =
      if f.Unchanged then some (path, [0, 0, 0]) else none := by
    have := pass1Out_unchanged a f p r (path, v) w
      (by simpa [hnr] using hs) (by simpa [hnr] using ha) h0 h1
    simpa [hnr] using this
  have hnocol := nocollide_of_not_target b r path hnt
  have hcase : (b.reverse.filterMap (pass1Out a f p r)).lookup path =
      if f.Unchanged then some [0, 0, 0] else none := by
    cases hu : f.Unchanged with
    | true =>
      rw [if_pos rfl]
      apply lookup_filterMap_unique
      · refine ⟨(path, v), List.mem_reverse.mpr hmem, ?_⟩
        rw [hout1, hu, if_pos rfl]
      · intro e he vv hout
        have heq := pass1_writer_eq b a f p r path path v hmem hnd hnocol
          e (List.mem_reverse.mp he) vv hout
        rw [heq, hout1, hu, if_pos rfl] at hout
        cases hout
        rfl
    | false =>
      rw [if_neg (by simp)]
      apply lookup_filterMap_none
      intro e he vv hout
      have heq := pass1_writer_eq b a f p r path path v hmem hnd hnocol
        e (List.mem_reverse.mp he) vv hout
      rw [heq, hout1, hu] at hout
      simp at hout
  rw [h2, hcase]
  cases hA : f.Added <;> cases hDC : f.Deleted || f.Changed <;>
    cases hu : f.Unchanged <;> simp

/-- C1 (witness): the amended theorem applied to a concrete input. -/
theorem c1_unchanged_pass_gated_witness :
    (GetResultsDiff [("/a", [1, 2])] [("/a", [1, 2])]
        ⟨false, false, true, true⟩ none none).lookup "/a" = some [0, 0, 0] :=
  c1_unchanged_pass_gated [("/a", [1, 2])] [("/a", [1, 2])]
    ⟨false, false, true, true⟩ none none "/a" [1, 2] [1, 2]
    rfl rfl rfl rfl rfl rfl rfl (by simp)

/-! ### C2: path scoping predicate -/

/-- C2 (counterexample): with an empty-but-present (non-nil, zero-element)
filter set, the path "/a" is NOT in scope, contradicting the claim that
every path is in scope for an empty-but-present set. -/
theorem c2_empty_present_set_counterexample :
    anyPathMatches (some []) "/a" = false := rfl

/-- C2 (amended): a test path is in scope iff the filter set is unset
(nil), or the path starts with at least one member of the set; an
empty-but-present set puts NO path in scope. -/
theorem c2_anyPathMatches_iff (p : Option (List String)) (t : String) :
    anyPathMatches p t = true ↔
      (p = none ∨ ∃ s, s ∈ p.getD [] ∧ strIndex0 t s = true) := by
  cases p with
  | none => simp [anyPathMatches]
  | some ps => simp [anyPathMatches, List.any_eq_true]

/-! ### C3: determinism / iteration-order independence -/

/-- C3 (counterexample): when a rename entry maps "/a" onto "/b", which
is itself a key of the before summary, the two iteration orders of the
same before map yield different triples at "/b": the output content
depends on map iteration order. -/
theorem c3_order_dependence_counterexample :
    ([("/a", [1, 2]), ("/b", [0, 2])] : Summary).Perm
        [("/b", [0, 2]), ("/a", [1, 2])] ∧
    (GetResultsDiff [("/a", [1, 2]), ("/b", [0, 2])] [("/b", [2, 2])]
        ⟨false, false, true, false⟩ none (some [("/a", "/b")])).lookup "/b"
      = some [2, 0, 0] ∧
    (GetResultsDiff [("/b", [0, 2]), ("/a", [1, 2])] [("/b", [2, 2])]
        ⟨false, false, true, false⟩ none (some [("/a", "/b")])).lookup "/b"
      = some [1, 0, 0] :=
  ⟨List.Perm.swap _ _ _, rfl, rfl⟩

theorem pass1Out_congr_after (a a2 : Summary) (f : DiffFilterParam)
    (p : Option (List String)) (r : RenameMap) (e : String × List Int)
    (hal : ∀ k, a.lookup k = a2.lookup k) :
    pass1Out a f p r e = pass1Out a2 f p r e := by
  simp only [pass1Out, hal]

theorem pass2Out_congr_before (b b2 : Summary) (p : Option (List String))
    (r : RenameMap) (e : String × List Int)
    (hbl : ∀ k, b.lookup k = b2.lookup k) :
    pass2Out b p r e = pass2Out b2 p r e := by
  simp only [pass2Out, hbl]

/-- C3 (amended): with no rename map (renames nil), the content of the
output of `GetResultsDiff` is independent of the iteration order of both
input maps: permuting either summary (with unique keys, as Go maps have)
leaves every lookup of the output unchanged.  (On identical inputs the
function is trivially deterministic; with a rename entry whose target is
also a before key, order-independence fails — see the counterexample.) -/
theorem c3_order_independent_renames_nil (b b2 a a2 : Summary)
    (f : DiffFilterParam) (p : Option (List String)) (q : String)
    (hbperm : b.Perm b2) (haperm : a.Perm a2)
    (hbnd : (b.map Prod.fst).Nodup) (hand : (a.map Prod.fst).Nodup) :
    (GetResultsDiff b a f p none).lookup q
      = (GetResultsDiff b2 a2 f p none).lookup q := by
  have hbnd2 : (b2.map Prod.fst).Nodup := ((hbperm.map Prod.fst).nodup_iff).mp hbnd
  have hand2 : (a2.map Prod.fst).Nodup := ((haperm.map Prod.fst).nodup_iff).mp hand
  have hbl : ∀ k, b.lookup k = b2.lookup k :=
    fun k => perm_lookup_eq b b2 hbnd hbperm k
  have hal : ∀ k, a.lookup k = a2.lookup k :=
    fun k => perm_lookup_eq a a2 hand haperm k
  have hk1 : ∀ (e : String × List Int) (k : String) (v : List Int),
      pass1Out a f p none e = some (k, v) → k = e.1 :=
    fun e k v h => (pass1Out_key a f p none e k v h).1
  have hk1b : ∀ (e : String × List Int) (k : String) (v : List Int),
      pass1Out a2 f p none e = some (k, v) → k = e.1 :=
    fun e k v h => (pass1Out_key a2 f p none e k v h).1
  have hk2 : ∀ (e : String × List Int) (k : String) (v : List Int),
      pass2Out b p none e = some (k, v) → k = e.1 :=
    fun e k v h => (pass2Out_key b p none e k v h).1
  have hk2b : ∀ (e : String × List Int) (k : String) (v : List Int),
      pass2Out b2 p none e = some (k, v) → k = e.1 :=
    fun e k v h => (pass2Out_key b2 p none e k v h).1
  rw [getResultsDiff_lookup, getResultsDiff_lookup]
  rw [lookup_filterMap_keyed b (pass1Out a f p none) q hk1 hbnd,
    lookup_filterMap_keyed b2 (pass1Out a2 f p none) q hk1b hbnd2,
    lookup_filterMap_keyed a (pass2Out b p none) q hk2 hand,
    lookup_filterMap_keyed a2 (pass2Out b2 p none) q hk2b hand2]
  have e1 : (fun v => (pass2Out b p none (q, v)).map Prod.snd)
      = (fun v => (pass2Out b2 p none (q, v)).map Prod.snd) := by
    funext v
    rw [pass2Out_congr_before b b2 p none (q, v) hbl]
  have e2 : (fun v => (pass1Out a f p none (q, v)).map Prod.snd)
      = (fun v => (pass1Out a2 f p none (q, v)).map Prod.snd) := by
    funext v
    rw [pass1Out_congr_after a a2 f p none (q, v) hal]
  rw [hbl q, hal q, e1, e2]

/-- C3 (witness): order-independence applied at a concrete pair of
permuted summaries. -/
theorem c3_order_independent_renames_nil_witness :
    (GetResultsDiff [("/a", [1, 2]), ("/b", [0, 2])] [("/c", [1, 1])]
        ⟨true, false, true, false⟩ none none).lookup "/c"
      = (GetResultsDiff [("/b", [0, 2]), ("/a", [1, 2])] [("/c", [1, 1])]
          ⟨true, false, true, false⟩ none none).lookup "/c" :=
  c3_order_independent_renames_nil _ _ _ _ _ _ _
    (List.Perm.swap _ _ _) (List.Perm.refl _) (by decide) (by decide)

/-! ### C4: changed entries -/

/-- C4: for a test path in scope, present in both summaries after rename
substitution with before counts `(bp,bt)` and after counts `(ap,at)`,
when `filter.changed` is true and the counts differ, `GetResultsDiff`
emits the triple `[max 0 (ap-bp), max 0 ((at-ap)-(bt-bp)), at-bt]` at
the (renamed) path; both clamped components can be nonzero at once (see
the witness). -/
theorem c4_changed_triple (b a : Summary) (f : DiffFilterParam)
    (p : Option (List String)) (r : RenameMap) (t u : String)
    (v w : List Int)
    (hb : b.lookup t = some v)
    (hr : renameTest r t = u)
    (ha : a.lookup u = some w)
    (hs : anyPathMatches p u = true)
    (hc : f.Changed = true)
    (hne : ¬(v.getD 0 0 = w.getD 0 0 ∧ v.getD 1 0 = w.getD 1 0))
    (hnd : (b.map Prod.fst).Nodup)
    (hnocol : ∀ e ∈ b, e.1 ≠ t → renameTest r e.1 ≠ u) :
    (GetResultsDiff b a f p r).lookup u =
      some [max 0 (w.getD 0 0 - v.getD 0 0),
            max 0 ((w.getD 1 0 - w.getD 0 0) - (v.getD 1 0 - v.getD 0 0)),
            w.getD 1 0 - v.getD 1 0] := by
  rw [getResultsDiff_lookup]
  have h2 : (a.reverse.filterMap (pass2Out b p r)).lookup u = none := by
    apply lookup_filterMap_none
    intro e he vv hout
    obtain ⟨-, -, hnt, hlook⟩ := pass2Out_key b p r e u vv hout
    by_cases htu : t = u
    · rw [← htu, hb] at hlook
      cases hlook
    · have hne2 : renameTest r t ≠ t := by
        rw [hr]
        exact fun hh => htu hh.symm
      have := isRenameTarget_of_renameTest_ne r t hne2
      rw [hr, hnt] at this
      exact Bool.false_ne_true this
  have hmem : (t, v) ∈ b := lookup_mem b t v hb
  have hout1 : pass1Out a f p r (t, v) =
      some (u, [max 0 (w.getD 0 0 - v.getD 0 0),
                max 0 ((w.getD 1 0 - w.getD 0 0) - (v.getD 1 0 - v.getD 0 0)),
                w.getD 1 0 - v.getD 1 0]) := by
    have := pass1Out_changed a f p r (t, v) w
      (by simpa [hr] using hs) (by simpa [hr] using ha) hne hc
    simpa [hr] using this
  have hDC : (f.Deleted || f.Changed) = true := by rw [hc]; simp
  rw [h2, hDC]
  have hmain : (b.reverse.filterMap (pass1Out a f p r)).lookup u =
      some [max 0 (w.getD 0 0 - v.getD 0 0),
            max 0 ((w.getD 1 0 - w.getD 0 0) - (v.getD 1 0 - v.getD 0 0)),
            w.getD 1 0 - v.getD 1 0] := by
    apply lookup_filterMap_unique
    · exact ⟨(t, v), List.mem_reverse.mpr hmem, hout1⟩
    · intro e he vv hout
      have heq := pass1_writer_eq b a f p r t u v hmem hnd hnocol
        e (List.mem_reverse.mp he) vv hout
      rw [heq, hout1] at hout
      cases hout
      rfl
  rw [hmain]
  cases hA : f.Added <;> simp

/-- C4 (witness): before `/t -> [1,3]`, after `/t -> [2,6]`: one newly
passing subtest AND two newly failing at the same time, total delta 3. -/
theorem c4_changed_triple_witness :
    (GetResultsDiff [("/t", [1, 3])] [("/t", [2, 6])]
        ⟨false, false, true, false⟩ none none).lookup "/t"
      = some [max 0 ((2 : Int) - 1), max 0 (((6 : Int) - 2) - (3 - 1)),
              (6 : Int) - 3] :=
  c4_changed_triple [("/t", [1, 3])] [("/t", [2, 6])]
    ⟨false, false, true, false⟩ none none "/t" "/t" [1, 3] [2, 6]
    rfl rfl rfl rfl rfl (by decide) (by decide)
    (fun e _ h1 hcon => h1 hcon)

/-! ### C5: rename awareness -/

/-- C5: the concrete rename example yields exactly `{"/b": [1,0,0]}`;
and for every filter, a path that is the target of a rename entry is
never emitted by the added pass — the output at such a path is the same
as with `added` forced to false. -/
theorem c5_rename_example_and_no_added_for_target (b a : Summary)
    (f : DiffFilterParam) (p : Option (List String)) (r : RenameMap)
    (q : String) (h : isRenameTarget r q = true) :
    GetResultsDiff [("/a", [1, 2])] [("/b", [2, 2])]
        ⟨false, false, true, false⟩ none (some [("/a", "/b")])
      = [("/b", [1, 0, 0])] ∧
    (GetResultsDiff b a f p r).lookup q =
      (GetResultsDiff b a ⟨false, f.Deleted, f.Changed, f.Unchanged⟩ p r).lookup q := by
  refine ⟨rfl, ?_⟩
  rw [getResultsDiff_lookup, getResultsDiff_lookup]
  have hnone : (a.reverse.filterMap (pass2Out b p r)).lookup q = none := by
    apply lookup_filterMap_none
    intro e he vv hout
    obtain ⟨-, -, hnt, -⟩ := pass2Out_key b p r e q vv hout
    rw [h] at hnt
    cases hnt
  rw [hnone]
  have hsame : pass1Out a (⟨false, f.Deleted, f.Changed, f.Unchanged⟩ :
      DiffFilterParam) p r = pass1Out a f p r := rfl
  rw [hsame]
  cases hA : f.Added <;> simp

/-- C5 (witness): the theorem applied at a concrete rename target. -/
theorem c5_rename_example_witness :
    GetResultsDiff [("/a", [1, 2])] [("/b", [2, 2])]
        ⟨false, false, true, false⟩ none (some [("/a", "/b")])
      = [("/b", [1, 0, 0])] ∧
    (GetResultsDiff [] [("/b", [2, 2])] ⟨true, false, false, false⟩
        none (some [("/a", "/b")])).lookup "/b" =
      (GetResultsDiff [] [("/b", [2, 2])] ⟨false, false, false, false⟩
        none (some [("/a", "/b")])).lookup "/b" :=
  c5_rename_example_and_no_added_for_target [] [("/b", [2, 2])]
    ⟨true, false, false, false⟩ none (some [("/a", "/b")]) "/b" rfl

/-! ### C6: added entries -/

/-- C6: for a test path in scope, present only in the after summary and
not the target of any rename entry, the path appears in the output of
`GetResultsDiff` iff `filter.added` is true, and then with triple
`[ap, at-ap, at]`. -/
theorem c6_added_triple (b a : Summary) (f : DiffFilterParam)
    (p : Option (List String)) (r : RenameMap) (q : String) (w : List Int)
    (ha : a.lookup q = some w) (hb : b.lookup q = none)
    (hs : anyPathMatches p q = true)
    (hnt : isRenameTarget r q = false)
    (hand : (a.map Prod.fst).Nodup) :
    (GetResultsDiff b a f p r).lookup q =
      if f.Added then
        some [w.getD 0 0, w.getD 1 0 - w.getD 0 0, w.getD 1 0]
      else none := by
  rw [getResultsDiff_lookup]
  have h1 : (b.reverse.filterMap (pass1Out a f p r)).lookup q = none := by
    apply lookup_filterMap_none
    intro e he vv hout
    obtain ⟨hkey, -⟩ := pass1Out_key a f p r e q vv hout
    by_cases h2 : renameTest r e.1 = e.1
    · rw [h2] at hkey
      have := lookup_isSome_of_mem b e (List.mem_reverse.mp he)
      rw [← hkey, hb] at this
      simp at this
    · have := isRenameTarget_of_renameTest_ne r e.1 h2
      rw [← hkey, hnt] at this
      exact Bool.false_ne_true this
  have hmem : (q, w) ∈ a := lookup_mem a q w ha
  have hout2 : pass2Out b p r (q, w) =
      some (q, [w.getD 0 0, w.getD 1 0 - w.getD 0 0, w.getD 1 0]) :=
    pass2Out_added b p r (q, w) hnt hs hb
  have h2 : (a.reverse.filterMap (pass2Out b p r)).lookup q =
      some [w.getD 0 0, w.getD 1 0 - w.getD 0 0, w.getD 1 0] := by
    apply lookup_filterMap_unique
    · exact ⟨(q, w), List.mem_reverse.mpr hmem, hout2⟩
    · intro e he vv hout
      obtain ⟨hkey, -, -, -⟩ := pass2Out_key b p r e q vv hout
      have he2 : e = (q, e.2) := by rw [hkey]
      have hev : e.2 = w := mem_eq_of_nodup_keys a hand q e.2 w
        (he2 ▸ List.mem_reverse.mp he) hmem
      rw [he2, hev, hout2] at hout
      cases hout
      rfl
  rw [h1, h2]
  cases hA : f.Added <;> cases hDC : f.Deleted || f.Changed <;> simp

/-- C6 (witness): a path only in `after` with counts `[3,5]` appears
with triple `[3,2,5]` when `added` is set. -/
theorem c6_added_triple_witness :
    (GetResultsDiff [] [("/x", [3, 5])] ⟨true, false, false, false⟩
        none none).lookup "/x" = some [3, 2, 5] :=
  c6_added_triple [] [("/x", [3, 5])] ⟨true, false, false, false⟩
    none none "/x" [3, 5] rfl rfl rfl rfl (by decide)

/-! ### C7: deleted entries -/

/-- C7: for a test path in scope (after rename substitution), present in
the before summary but whose (renamed) path is absent from the after
summary, the (renamed) path appears in the output of `GetResultsDiff`
iff `filter.deleted` is true, and then with triple `[0, 0, -bt]`. -/
theorem c7_deleted_triple (b a : Summary) (f : DiffFilterParam)
    (p : Option (List String)) (r : RenameMap) (t u : String) (v : List Int)
    (hb : b.lookup t = some v)
    (hr : renameTest r t = u)
    (ha : a.lookup u = none)
    (hs : anyPathMatches p u = true)
    (hnd : (b.map Prod.fst).Nodup)
    (hnocol : ∀ e ∈ b, e.1 ≠ t → renameTest r e.1 ≠ u) :
    (GetResultsDiff b a f p r).lookup u =
      if f.Deleted then some [0, 0, -(v.getD 1 0)] else none := by
  rw [getResultsDiff_lookup]
  have h2 : (a.reverse.filterMap (pass2Out b p r)).lookup u = none := by
    apply lookup_filterMap_none
    intro e he vv hout
    obtain ⟨hkey, -, -, -⟩ := pass2Out_key b p r e u vv hout
    have := lookup_isSome_of_mem a e (List.mem_reverse.mp he)
    rw [← hkey, ha] at this
    simp at this
  have hmem : (t, v) ∈ b := lookup_mem b t v hb
  have hout1 : pass1Out a f p r (t, v) =
      if f.Deleted then some (u, [0, 0, -(v.getD 1 0)]) else none := by
    have := pass1Out_deleted a f p r (t, v)
      (by simpa [hr] using hs) (by simpa [hr] using ha)
    simpa [hr] using this
  have hcase : (b.reverse.filterMap (pass1Out a f p r)).lookup u =
      if f.Deleted then some [0, 0, -(v.getD 1 0)] else none := by
    cases hd : f.Deleted with
    | true =>
      rw [if_pos rfl]
      apply lookup_filterMap_unique
      · exact ⟨(t, v), List.mem_reverse.mpr hmem, by rw [hout1, hd, if_pos rfl]⟩
      · intro e he vv hout
        have heq := pass1_writer_eq b a f p r t u v hmem hnd hnocol
          e (List.mem_reverse.mp he) vv hout
        rw [heq, hout1, hd, if_pos rfl] at hout
        cases hout
        rfl
    | false =>
      rw [if_neg (by simp)]
      apply lookup_filterMap_none
      intro e he vv hout
      have heq := pass1_writer_eq b a f p r t u v hmem hnd hnocol
        e (List.mem_reverse.mp he) vv hout
      rw [heq, hout1, hd] at hout
      simp at hout
  rw [h2, hcase]
  cases hA : f.Added <;> cases hd : f.Deleted <;> cases hc : f.Changed <;> simp

/-- C7 (witness): a path only in `before` with counts `[3,5]` appears
with triple `[0,0,-5]` when `deleted` is set. -/
theorem c7_deleted_triple_witness :
    (GetResultsDiff [("/x", [3, 5])] [] ⟨false, true, false, false⟩
        none none).lookup "/x" = some [0, 0, -5] :=
  c7_deleted_triple [("/x", [3, 5])] [] ⟨false, true, false, false⟩
    none none "/x" "/x" [3, 5] rfl rfl rfl rfl (by decide)
    (fun e _ h1 hcon => h1 hcon)

/-! ### C8: path scoping -/

/-- C8: a path that is not in scope (does not start with any member of a
present path-filter set) is never a key of the output of
`GetResultsDiff`, for every pair of summaries, filter and rename map:
both passes check scope before writing (the first on the renamed path,
the second on the after-summary path). -/
theorem c8_out_of_scope_never_key (b a : Summary) (f : DiffFilterParam)
    (p : Option (List String)) (r : RenameMap) (q : String)
    (h : anyPathMatches p q = false) :
    (GetResultsDiff b a f p r).lookup q = none := by
  rw [getResultsDiff_lookup]
  have h1 : (b.reverse.filterMap (pass1Out a f p r)).lookup q = none := by
    apply lookup_filterMap_none
    intro e he vv hout
    obtain ⟨-, hsc⟩ := pass1Out_key a f p r e q vv hout
    rw [h] at hsc
    exact Bool.false_ne_true hsc
  have h2 : (a.reverse.filterMap (pass2Out b p r)).lookup q = none := by
    apply lookup_filterMap_none
    intro e he vv hout
    obtain ⟨-, hsc, -, -⟩ := pass2Out_key b p r e q vv hout
    rw [h] at hsc
    exact Bool.false_ne_true hsc
  rw [h1, h2]
  cases hA : f.Added <;> cases hDC : f.Deleted || f.Changed <;> simp

/-- C8 (witness): with scope prefix `/css/`, the path `/html/foo.html`
never appears, here with all filter facets on and the path present in
both summaries. -/
theorem c8_out_of_scope_never_key_witness :
    (GetResultsDiff [("/html/foo.html", [1, 2])] [("/html/foo.html", [2, 2])]
        ⟨true, true, true, true⟩ (some ["/css/"]) none).lookup
      "/html/foo.html" = none :=
  c8_out_of_scope_never_key [("/html/foo.html", [1, 2])]
    [("/html/foo.html", [2, 2])] ⟨true, true, true, true⟩
    (some ["/css/"]) none "/html/foo.html" (by decide)

/-! ### C9: fetch errors, rename-resolution failure and its panics -/

/-- C9 (counterexample): a nil comparison with a nil error is a
rename-resolution failure that does NOT yield a nil rename map with the
diff proceeding: `getDiffRenames` panics (`err.Error()` on a nil
interface in the log call, after the `sha[:7]` slices) and the panic
propagates through `GetRunsDiff`, even though both revision strings are
8 bytes long, distinct, the secret is present and both fetches
succeeded. -/
theorem c9_rename_nil_comparison_panic_counterexample :
    getDiffRenames "aaaaaaaa" "bbbbbbbb" (Except.ok "token")
        (Except.ok none) = none ∧
    GetRunsDiff (Except.ok [("/t", [1, 2])]) (Except.ok [("/t", [1, 2])])
        ⟨false, false, true, true⟩ none true "aaaaaaaa" "bbbbbbbb"
        (Except.ok "token") (Except.ok none) = none ∧
    getDiffRenames "abc" "bbbbbbbb" (Except.ok "token")
        (Except.error "boom") = none :=
  ⟨rfl, rfl, rfl⟩

/-- C9 (amended): `GetRunsDiff` returns an error value iff fetching a
summary fails, wrapping the underlying error and naming the side
('before' checked first); `getDiffRenames` never returns an error, and
when it fails without panicking — identical revisions, a missing
secret, or a comparison error logged with both revisions at least 7
bytes long — it returns a nil rename map and the diff proceeds
rename-unaware.  But a nil comparison with a nil error panics
unconditionally, and that panic propagates through `GetRunsDiff`
instead of degrading to a nil map. -/
theorem c9_fetch_errors_and_rename_panics (bf af : Except String Summary)
    (f : DiffFilterParam) (p : Option (List String)) (en : Bool)
    (shaB shaA : String) (sec : Except String String)
    (comp : Except String (Option (List GithubFile)))
    (s s2 : Summary) (e msg tok : String)
    (hB : 7 ≤ shaB.utf8ByteSize) (hA : 7 ≤ shaA.utf8ByteSize)
    (hne : (shaB == shaA) = false) :
    GetRunsDiff (Except.error e) af f p en shaB shaA sec comp
      = some (Except.error ("Failed to fetch \x27before\x27 results: " ++ e)) ∧
    GetRunsDiff (Except.ok s) (Except.error e) f p en shaB shaA sec comp
      = some (Except.error ("Failed to fetch \x27after\x27 results: " ++ e)) ∧
    (∀ err, GetRunsDiff bf af f p en shaB shaA sec comp
        = some (Except.error err) →
      (∃ e2, bf = Except.error e2) ∨ (∃ e2, af = Except.error e2)) ∧
    getDiffRenames shaB shaB sec comp = some none ∧
    getDiffRenames shaB shaA (Except.error msg) comp = some none ∧
    getDiffRenames shaB shaA (Except.ok tok) (Except.error msg)
      = some none ∧
    GetRunsDiff (Except.ok s) (Except.ok s2) f p true shaB shaA
        (Except.ok tok) (Except.error msg)
      = some (Except.ok
          { BeforeSummary := s
            AfterSummary := s2
            Differences := GetResultsDiff s s2 f p none
            Renames := none }) ∧
    getDiffRenames shaB shaA (Except.ok tok) (Except.ok none) = none ∧
    GetRunsDiff (Except.ok s) (Except.ok s2) f p true shaB shaA
        (Except.ok tok) (Except.ok none) = none := by
  have h6 : getDiffRenames shaB shaA (Except.ok tok) (Except.error msg)
      = some none := by
    simp [getDiffRenames, hne, goSlice7, hB, hA]
  have h8 : getDiffRenames shaB shaA (Except.ok tok) (Except.ok none)
      = none := by
    simp [getDiffRenames, hne]
  refine ⟨rfl, rfl, ?_, ?_, ?_, h6, ?_, h8, ?_⟩
  · intro err h
    cases bf with
    | error e2 => exact Or.inl ⟨e2, rfl⟩
    | ok s1 =>
      cases af with
      | error e2 => exact Or.inr ⟨e2, rfl⟩
      | ok s3 =>
        exfalso
        simp only [GetRunsDiff] at h
        cases hg : (if en then getDiffRenames shaB shaA sec comp
            else some none) with
        | none => rw [hg] at h; cases h
        | some renames => rw [hg] at h; simp at h
  · simp [getDiffRenames]
  · cases h : shaB == shaA <;> simp [getDiffRenames, h]
  · simp [GetRunsDiff, h6]
  · simp [GetRunsDiff, h8]

/-- C9 (witness): the amended theorem applied at concrete 8-byte
revisions, a graceful comparison failure and the panic input. -/
theorem c9_fetch_errors_and_rename_panics_witness :
    (7 ≤ ("aaaaaaaa" : String).utf8ByteSize) ∧
    (7 ≤ ("bbbbbbbb" : String).utf8ByteSize) ∧
    (("aaaaaaaa" == "bbbbbbbb") = false) ∧
    GetRunsDiff (Except.error "x") (Except.ok []) ⟨false, false, false, false⟩
        none true "aaaaaaaa" "bbbbbbbb" (Except.ok "t") (Except.ok none)
      = some (Except.error ("Failed to fetch \x27before\x27 results: " ++ "x")) ∧
    getDiffRenames "aaaaaaaa" "bbbbbbbb" (Except.ok "t") (Except.error "m")
      = some none ∧
    GetRunsDiff (Except.ok []) (Except.ok []) ⟨false, false, false, false⟩
        none true "aaaaaaaa" "bbbbbbbb" (Except.ok "t") (Except.ok none)
      = none := by
  have hthm := c9_fetch_errors_and_rename_panics
    (Except.ok []) (Except.ok []) ⟨false, false, false, false⟩ none true
    "aaaaaaaa" "bbbbbbbb" (Except.ok "t") (Except.ok none) [] [] "x" "m" "t"
    (by decide) (by decide) rfl
  exact ⟨by decide, by decide, rfl, hthm.1, hthm.2.2.2.2.2.1,
    hthm.2.2.2.2.2.2.2.2⟩

/-! ### C10: slice accesses are in bounds for length-2 summaries -/

theorem get0_of_len2 (l : List Int) (h : 2 ≤ l.length) :
    l.get? 0 = some (l.getD 0 0) := by
  cases l with
  | nil => simp at h
  | cons x t => rfl

theorem get1_of_len2 (l : List Int) (h : 2 ≤ l.length) :
    l.get? 1 = some (l.getD 1 0) := by
  cases l with
  | nil => simp at h
  | cons x t =>
    cases t with
    | nil => simp at h
    | cons y t2 => rfl

theorem pass1OutChecked_eq (a : Summary) (f : DiffFilterParam)
    (p : Option (List String)) (r : RenameMap) (e : String × List Int)
    (hbe : 2 ≤ e.2.length) (ha : ∀ x ∈ a, 2 ≤ x.2.length) :
    pass1OutChecked a f p r e = some (pass1Out a f p r e) := by
  simp only [pass1OutChecked, pass1Out]
  by_cases hs : anyPathMatches p (renameTest r e.1) = true
  · rw [hs]
    simp only [Bool.not_true, Bool.false_eq_true, if_false]
    cases hl : a.lookup (renameTest r e.1) with
    | none =>
      dsimp only
      by_cases hd : f.Deleted = true
      · rw [hd]
        simp only [Bool.not_true, Bool.false_eq_true, if_false]
        rw [get1_of_len2 e.2 hbe]
      · rw [Bool.eq_false_iff.mpr hd]
        simp
    | some w =>
      dsimp only
      have hw : 2 ≤ w.length :=
        ha (renameTest r e.1, w) (lookup_mem a (renameTest r e.1) w hl)
      by_cases hcu : (!f.Changed && !f.Unchanged) = true
      · rw [hcu]
        simp
      · rw [Bool.eq_false_iff.mpr hcu]
        simp only [Bool.false_eq_true, if_false]
        rw [get0_of_len2 e.2 hbe, get1_of_len2 e.2 hbe,
          get0_of_len2 w hw, get1_of_len2 w hw]
        dsimp only
        split <;> rfl
  · rw [Bool.eq_false_iff.mpr hs]
    simp

theorem pass2OutChecked_eq (b : Summary) (p : Option (List String))
    (r : RenameMap) (e : String × List Int) (hbe : 2 ≤ e.2.length) :
    pass2OutChecked b p r e = some (pass2Out b p r e) := by
  simp only [pass2OutChecked, pass2Out]
  by_cases ht : isRenameTarget r e.1 = true
  · rw [ht]
    simp
  · rw [Bool.eq_false_iff.mpr ht]
    simp only [Bool.false_eq_true, if_false]
    by_cases hs : anyPathMatches p e.1 = true
    · rw [hs]
      simp only [Bool.not_true, Bool.false_eq_true, if_false]
      cases hl : b.lookup e.1 with
      | some w => rfl
      | none =>
        dsimp only
        rw [get0_of_len2 e.2 hbe, get1_of_len2 e.2 hbe]
    · rw [Bool.eq_false_iff.mpr hs]
      simp

theorem foldlChecked_eq {α : Type} (outC : α → Option (Option (String × List Int)))
    (out : α → Option (String × List Int)) (l : List α) (d : Diff)
    (h : ∀ e ∈ l, outC e = some (out e)) :
    l.foldl (fun od e => od.bind (fun d0 => (outC e).map (applyOut d0)))
        (some d)
      = some (l.foldl (fun acc e => applyOut acc (out e)) d) := by
  induction l generalizing d with
  | nil => rfl
  | cons e t ih =>
    simp only [List.foldl_cons]
    rw [h e (List.mem_cons_self _ _)]
    show t.foldl _ (some (applyOut d (out e))) = _
    exact ih (applyOut d (out e)) (fun e2 he2 => h e2 (List.mem_cons_of_mem _ he2))

/-- C10: `GetResultsDiff` reads indices 0 and 1 of the count slices with
no length check; when every value of both summaries has length at least
2 every access is in bounds — the partial (`Checked`) embedding, where a
Go panic is `none`, agrees with the total one and never panics — and
the precondition is required: a single length-1 before value makes the
deleted pass panic. -/
theorem c10_length2_precondition (b a : Summary) (f : DiffFilterParam)
    (p : Option (List String)) (r : RenameMap)
    (hb : ∀ e ∈ b, 2 ≤ e.2.length) (ha : ∀ e ∈ a, 2 ≤ e.2.length) :
    GetResultsDiffChecked b a f p r = some (GetResultsDiff b a f p r) ∧
    GetResultsDiffChecked [("/x", [1])] [] ⟨false, true, false, false⟩
      none none = none := by
  refine ⟨?_, rfl⟩
  have h1 : ∀ e ∈ b, pass1OutChecked a f p r e = some (pass1Out a f p r e) :=
    fun e he => pass1OutChecked_eq a f p r e (hb e he) ha
  have h2 : ∀ e ∈ a, pass2OutChecked b p r e = some (pass2Out b p r e) :=
    fun e he => pass2OutChecked_eq b p r e (ha e he)
  cases hDC : f.Deleted || f.Changed with
  | true =>
    cases hA : f.Added with
    | true =>
      simp only [GetResultsDiffChecked, GetResultsDiff, hDC, hA, if_true]
      rw [foldlChecked_eq (pass1OutChecked a f p r) (pass1Out a f p r) b [] h1]
      rw [foldlChecked_eq (pass2OutChecked b p r) (pass2Out b p r) a _ h2]
    | false =>
      simp only [GetResultsDiffChecked, GetResultsDiff, hDC, hA,
        Bool.false_eq_true, if_false, if_true]
      rw [foldlChecked_eq (pass1OutChecked a f p r) (pass1Out a f p r) b [] h1]
  | false =>
    cases hA : f.Added with
    | true =>
      simp only [GetResultsDiffChecked, GetResultsDiff, hDC, hA,
        Bool.false_eq_true, if_false, if_true]
      rw [foldlChecked_eq (pass2OutChecked b p r) (pass2Out b p r) a [] h2]
    | false =>
      simp only [GetResultsDiffChecked, GetResultsDiff, hDC, hA,
        Bool.false_eq_true, if_false]

/-- C10 (witness): the equivalence applied to concrete length-2
summaries. -/
theorem c10_length2_precondition_witness :
    GetResultsDiffChecked [("/x", [3, 5])] [("/y", [1, 2])]
        ⟨true, true, true, true⟩ none none
      = some (GetResultsDiff [("/x", [3, 5])] [("/y", [1, 2])]
          ⟨true, true, true, true⟩ none none) ∧
    GetResultsDiffChecked [("/x", [1])] [] ⟨false, true, false, false⟩
      none none = none :=
  c10_length2_precondition [("/x", [3, 5])] [("/y", [1, 2])]
    ⟨true, true, true, true⟩ none none
    (by decide) (by decide)

end WptFyi
